import Mathlib

/-!
Shallow embedding of the YouTube media-extraction subsystem of
lostdusty/gobalt (file feature_playlist.go), together with proofs about
the claims of the specification.

Strings are modelled at the character level; the payloads the code
manipulates (URLs, signature strings, JavaScript source text) are ASCII,
where Go's byte indices and Lean's character indices coincide.
Go runtime panics (out-of-range slice or index expressions, integer
division by zero) are modelled by an `Option` result whose `none` case
marks the panic.
-/

namespace Gobalt

/-! ## Go string/strconv primitives used by feature_playlist.go -/

/-- ASCII letter class, the character class of the function-name pattern. -/
def isAsciiLetter (c : Char) : Bool :=
  ('a' ≤ c && c ≤ 'z') || ('A' ≤ c && c ≤ 'Z')

/-- First index at which `sub` occurs in `l`, leftmost first
(Go strings.Index; Go's -1 result is modelled as `none`). -/
def subIndex (sub : List Char) : List Char → Option Nat
  | [] => if sub.isEmpty then some 0 else none
  | a :: t =>
    if sub.isPrefixOf (a :: t) then some 0
    else (subIndex sub t).map (· + 1)

/-- Go strings.Index over strings (char positions). -/
def goIndex (s sub : String) : Option Nat :=
  subIndex sub.toList s.toList

/-- Go strings.HasPrefix. -/
def goStartsWith (s pre : String) : Bool :=
  pre.toList.isPrefixOf s.toList

/-- Go strings.HasSuffix. -/
def goEndsWith (s suf : String) : Bool :=
  suf.toList.isSuffixOf s.toList

/-- Drop the first `n` characters of a string. -/
def strDrop (s : String) (n : Nat) : String :=
  ⟨s.toList.drop n⟩

/-- Keep the first `n` characters of a string. -/
def strTake (s : String) (n : Nat) : String :=
  ⟨s.toList.take n⟩

/-- Character count of a string. -/
def strLen (s : String) : Nat :=
  s.toList.length

/-- Go strings.TrimPrefix. -/
def goTrimPre (s pre : String) : String :=
  if goStartsWith s pre then strDrop s (strLen pre) else s

/-- Go strings.TrimSuffix. -/
def goTrimSuf (s suf : String) : String :=
  if goEndsWith s suf then strTake s (strLen s - strLen suf) else s

/-- Splitting worker: cut at the leftmost occurrence of `sep` and repeat on
the remainder. Each cut consumes at least one character when `sep` is
nonempty, so a fuel of the string's length is never exhausted. -/
def splitSepFuel (sep : String) : Nat → String → List String
  | 0, s => [s]
  | fuel + 1, s =>
    match goIndex s sep with
    | none => [s]
    | some i => strTake s i :: splitSepFuel sep fuel (strDrop s (i + strLen sep))

/-- Go strings.Split with a nonempty separator (every call site of the
source uses a nonempty separator). -/
def goSplit (s sep : String) : List String :=
  splitSepFuel sep (strLen s) s

/-- Go strings.SplitN with n = 2: split at the first occurrence of `sep`
only; a string not containing `sep` stays in one piece. -/
def goSplitN2 (s sep : String) : List String :=
  match goIndex s sep with
  | none => [s]
  | some i => [strTake s i, strDrop s (i + strLen sep)]

/-- Value of a nonempty all-digit character list, `none` otherwise. -/
def digitsVal : List Char → Option Nat
  | [] => none
  | l => go l 0
where
  go : List Char → Nat → Option Nat
    | [], acc => some acc
    | c :: t, acc =>
      if c.isDigit then go t (acc * 10 + (c.toNat - '0'.toNat)) else none

/-- Go strconv.Atoi: optional sign followed by at least one digit
(64-bit overflow is not modelled; the parsed arguments are small). -/
def goAtoi (s : String) : Option Int :=
  match s.toList with
  | [] => none
  | '+' :: t => (digitsVal t).map Int.ofNat
  | '-' :: t => (digitsVal t).map (fun n => -(n : Int))
  | l => (digitsVal l).map Int.ofNat

/-! ## Errors: the package-level error variables of feature_playlist.go,
plus the error classes produced by the standard library (encoding/json
unmarshal type errors, transport errors). -/

inductive Err where
  /-- ErrNoSuitableFormat -/
  | noSuitableFormat
  /-- ErrGettingUrlFromSignatureCipher -/
  | gettingUrlFromSignatureCipher
  /-- ErrDecryptFunctionBroken -/
  | decryptFunctionBroken
  /-- ErrMalformedJson -/
  | malformedJson
  /-- ErrDecryptGettingFunctionName -/
  | decryptGettingFunctionName
  /-- ErrDecryptGettingFunction -/
  | decryptGettingFunction
  /-- ErrDecryptGettingOpTable -/
  | decryptGettingOpTable
  /-- ErrGettingBaseJs -/
  | gettingBaseJs
  /-- an error produced by encoding/json itself (e.g. a
  json.UnmarshalTypeError), distinct from every package-level variable -/
  | unmarshalTypeError
  /-- a transport / IO error from net/http, distinct from every
  package-level variable -/
  | fetchError
deriving Repr, DecidableEq, Inhabited

/-! ## Decryptor operations (type decryptorOp)

The source stores one of three closures per operation; the closed set of
closures is modelled as a kind tag, and the closure bodies as `applyOp`. -/

inductive OpKind where
  /-- the closure for the body function(a)\x7ba.reverse()\x7d -/
  | reverse
  /-- the closure for the body
  function(a,b)\x7bvar c=a[0];a[0]=a[b%a.length];a[b%a.length]=c\x7d -/
  | swapFirst
  /-- the closure for the body function(a,b)\x7ba.splice(0,b)\x7d -/
  | sliceFrom
deriving Repr, DecidableEq, Inhabited

structure DecryptorOp where
  kind : OpKind
  arg : Int
deriving Repr, DecidableEq, Inhabited

/-- Swap `l[i]` and `l[j]` (the parallel assignment c[0],c[i] = c[i],c[0]). -/
def listSwap (l : List Char) (i j : Nat) : List Char :=
  (l.set i (l.getD j ' ')).set j (l.getD i ' ')

/-- The reverse closure: builds the reversed string by prepending each
character in order. -/
def reverseGo (s : String) : String :=
  ⟨s.toList.reverse⟩

/-- The swap closure: c := []byte(*a); c[0], c[b%len(*a)] = c[b%len(*a)], c[0].
Go's % truncates toward zero; len 0 panics with a division by zero, and a
negative remainder panics with an index out of range (`none`). -/
def swapFirstGo (s : String) (b : Int) : Option String :=
  if strLen s = 0 then none
  else if Int.tmod b (strLen s : Int) < 0 then none
  else some ⟨listSwap s.toList 0 (Int.tmod b (strLen s : Int)).toNat⟩

/-- The slice closure: *a = (*a)[b:]. The Go slice expression requires
0 ≤ b ≤ len(*a) and panics otherwise (`none`). -/
def sliceFromGo (s : String) (b : Int) : Option String :=
  if 0 ≤ b ∧ b ≤ (strLen s : Int) then some (strDrop s b.toNat) else none

/-- Run one stored operation closure on the string state. -/
def applyOp (op : DecryptorOp) (s : String) : Option String :=
  match op.kind with
  | .reverse => some (reverseGo s)
  | .swapFirst => swapFirstGo s op.arg
  | .sliceFrom => sliceFromGo s op.arg

/-- The switch of getDecryptOps lines 205-227: classify an entry's function
text against the three known structural patterns by literal prefix match;
`none` for an unrecognized body (the switch has no default case). -/
def classifyOpFn (fn : String) : Option OpKind :=
  if goStartsWith fn "function(a)\x7ba.reverse()\x7d" then
    some .reverse
  else if goStartsWith fn "function(a,b)\x7bvar c=a[0];a[0]=a[b%a.length];a[b%a.length]=c\x7d" then
    some .swapFirst
  else if goStartsWith fn "function(a,b)\x7ba.splice(0,b)\x7d" then
    some .sliceFrom
  else
    none

/-! ## getDecryptFunction

decryptFunctionNameRegexp is the fixed pattern
[a-zA-Z]*&&\(​[a-zA-Z]*=([a-zA-Z]*)\(decodeURIComponent\([a-zA-Z]*\)\),[a-zA-Z]*\.set\([a-zA-Z]*,encodeURIComponent\([a-zA-Z]*\)\)\).
Each letter class is immediately followed by a literal whose first
character is not a letter, so at any start position a greedy match is
forced to consume each maximal letter run whole: matching is
deterministic, and FindSubmatchIndex's leftmost match is the first start
position (scanning left to right) at which the anchored match succeeds. -/

/-- Strip a literal from the front of the character stream. -/
def stripLit (lit : String) (l : List Char) : Option (List Char) :=
  if lit.toList.isPrefixOf l then some (l.drop (strLen lit)) else none

/-- Anchored match of decryptFunctionNameRegexp at the current position,
returning the single capture group (the function name). -/
def matchPatAt (l : List Char) : Option (List Char) :=
  (stripLit "&&(" (l.dropWhile isAsciiLetter)).bind fun l =>
  (stripLit "=" (l.dropWhile isAsciiLetter)).bind fun l =>
  let cap := l.takeWhile isAsciiLetter
  (stripLit "(decodeURIComponent(" (l.dropWhile isAsciiLetter)).bind fun l =>
  (stripLit "))," (l.dropWhile isAsciiLetter)).bind fun l =>
  (stripLit ".set(" (l.dropWhile isAsciiLetter)).bind fun l =>
  (stripLit ",encodeURIComponent(" (l.dropWhile isAsciiLetter)).bind fun l =>
  (stripLit ")))" (l.dropWhile isAsciiLetter)).map fun _ => cap

/-- Leftmost match of decryptFunctionNameRegexp, returning the capture. -/
def findDecryptFnName : List Char → Option (List Char)
  | [] => matchPatAt []
  | a :: t =>
    match matchPatAt (a :: t) with
    | some cap => some cap
    | none => findDecryptFnName t

/-- getDecryptFunction (lines 139-158): find the decryption entry-point
function name with the fixed pattern, then cut its body out between the
literal markers. -/
def getDecryptFunction (baseJs : String) : Except Err String :=
  match findDecryptFnName baseJs.toList with
  | none => .error .decryptGettingFunctionName
  | some capChars =>
    let fnName : String := ⟨capChars⟩
    let startMatch := fnName ++ "=function(a)\x7ba=a.split(\"\");"
    let endMatch := ";return a.join(\"\")\x7d;"
    match goIndex baseJs startMatch with
    | none => .error .decryptGettingFunction
    | some start =>
      let fn := strDrop baseJs (start + strLen startMatch)
      match goIndex fn endMatch with
      | none => .error .decryptGettingFunction
      | some e => .ok (strTake fn e)

/-! ## getDecryptOps -/

/-- The block of getDecryptOps lines 167-188: the first statement's text
before the first dot names the helper object; cut the object literal body
out of the bundle between var <name>=\x7b and \x7d;. -/
def locateOpsBody (baseJs decrFn : String) : Except Err String :=
  let sp := goSplitN2 decrFn "."
  if sp.length ≠ 2 then .error .decryptGettingOpTable
  else
    let opsObjName := sp.headD ""
    let startMatch := "var " ++ opsObjName ++ "=\x7b"
    let endMatch := "\x7d;"
    match goIndex baseJs startMatch with
    | none => .error .decryptGettingOpTable
    | some start =>
      let ops0 := strDrop baseJs (start + strLen startMatch)
      match goIndex ops0 endMatch with
      | none => .error .decryptGettingOpTable
      | some e => .ok (strTake ops0 e)

/-- The loop of getDecryptOps lines 198-228: split each line at the colon
into exactly name and function text, and record each entry whose text
matches a known pattern (an unrecognized line inserts nothing; Go map
insertion is modelled by consing, so a later duplicate name shadows an
earlier one under `List.lookup`). -/
def buildOpTableAux (acc : List (String × OpKind)) :
    List String → Except Err (List (String × OpKind))
  | [] => .ok acc
  | ln :: rest =>
    let sp := goSplit ln ":"
    if sp.length = 2 then
      let name := sp.headD ""
      let fn := (sp.drop 1).headD ""
      match classifyOpFn fn with
      | some k => buildOpTableAux ((name, k) :: acc) rest
      | none => buildOpTableAux acc rest
    else .error .decryptGettingOpTable

/-- The op-table block of getDecryptOps lines 192-229: exactly three
newline-delimited entries, then the per-line loop. -/
def buildOpTable (ops : String) : Except Err (List (String × OpKind)) :=
  let lns := goSplit ops "\n"
  if lns.length ≠ 3 then .error .decryptGettingOpTable
  else buildOpTableAux [] lns

/-- The final loop of getDecryptOps lines 233-254: split the decrypt
function body on ";" into calls obj.op(a,arg), parse the argument and
resolve the name against the table. -/
def parseOps (table : List (String × OpKind)) :
    List String → Except Err (List DecryptorOp)
  | [] => .ok []
  | fn :: rest =>
    let sp := goSplitN2 fn "."
    if sp.length ≠ 2 then .error .decryptGettingOpTable
    else
      let sp2 := goSplitN2 ((sp.drop 1).headD "") "("
      if sp2.length ≠ 2 then .error .decryptGettingOpTable
      else
        let name := sp2.headD ""
        let argS := goTrimSuf (goTrimPre ((sp2.drop 1).headD "") "a,") ")"
        match goAtoi argS with
        | none => .error .decryptGettingOpTable
        | some arg =>
          match table.lookup name with
          | none => .error .decryptGettingOpTable
          | some k =>
            match parseOps table rest with
            | .error e => .error e
            | .ok res => .ok (⟨k, arg⟩ :: res)

/-- getDecryptOps (lines 160-256). -/
def getDecryptOps (baseJs : String) : Except Err (List DecryptorOp) :=
  match getDecryptFunction baseJs with
  | .error e => .error e
  | .ok decrFn =>
    match locateOpsBody baseJs decrFn with
    | .error e => .error e
    | .ok ops =>
      match buildOpTable ops with
      | .error e => .error e
      | .ok table => parseOps table (goSplit decrFn ";")

/-! ## updateDecryptor

The network steps of updateDecryptor are modelled by an environment
holding their outcomes: the homepage script scan (the `err` returned by
GetHTMLScriptFunc, the `funcErr` and `url` locals set by the callback) and
the bundle download (http.Get transport errors, the non-200 status check
and the io.Copy, each of which returns before any mutation, are folded
into one `Except`). -/

structure Decryptor where
  versionId : String
  ops : List DecryptorOp
deriving Repr, DecidableEq, Inhabited

structure UpdateEnv where
  /-- the error value returned by GetHTMLScriptFunc (line 68) -/
  fetchErr : Option Err
  /-- the funcErr local set by the scan callback (lines 74, 81) -/
  funcErr : Option Err
  /-- the url local set by the scan callback (line 85) -/
  url : String
  /-- outcome of http.Get + status check + io.Copy (lines 110-124) -/
  bundle : Except Err String

/-- updateDecryptor (lines 62-135), returning the new decryptor state and
the returned error. Note the source's line 94: when funcErr is set the
function returns the variable err, which is nil on that path. -/
def updateDecryptor (env : UpdateEnv) (d : Decryptor) : Decryptor × Option Err :=
  match env.fetchErr with
  | some e => (d, some e)
  | none =>
    if env.funcErr.isSome then
      -- the source returns err (nil here), not funcErr
      (d, none)
    -- sp := strings.SplitN(strings.TrimPrefix(url, "/s/player/"), "/", 2)
    else if (goSplitN2 (goTrimPre env.url "/s/player/") "/").length ≠ 2 then
      (d, some .gettingBaseJs)
    -- verId := sp[0]
    else if d.versionId = (goSplitN2 (goTrimPre env.url "/s/player/") "/").headD "" then
      (d, none)
    else
      match env.bundle with
      | .error e => (d, some e)
      | .ok body =>
        match getDecryptOps body with
        | .error e => (d, some e)
        | .ok ops =>
          ({ versionId := (goSplitN2 (goTrimPre env.url "/s/player/") "/").headD ""
           , ops := ops }, none)

/-! ## getVideo: audio format selection and the retry loop -/

structure AdaptiveFormat where
  url : String
  signatureCipher : String
  mimeType : String
  bitrate : Int
deriving Repr, DecidableEq, Inhabited

/-- The selection loop of getVideo (lines 446-453): `maxBr` starts at -1
(modelled as `none`) and moves to index i whenever format i is an audio
format whose bitrate strictly exceeds the current best. -/
def selectAudioAux (all : List AdaptiveFormat) :
    List AdaptiveFormat → Nat → Option Nat → Option Nat
  | [], _, maxBr => maxBr
  | f :: rest, i, maxBr =>
    let maxBr' :=
      if goStartsWith f.mimeType "audio/" then
        match maxBr with
        | none => some i
        | some m => if f.bitrate > ((all.getD m default).bitrate) then some i else some m
      else maxBr
    selectAudioAux all rest (i + 1) maxBr'

/-- Index of the audio format with maximum bitrate, `none` when maxBr
stays -1. -/
def selectAudio (fs : List AdaptiveFormat) : Option Nat :=
  selectAudioAux fs fs 0 none

/-- Lines 446-456 and 467: the selected format, or ErrNoSuitableFormat. -/
def pickAudioFormat (fs : List AdaptiveFormat) : Except Err AdaptiveFormat :=
  match selectAudio fs with
  | none => .error .noSuitableFormat
  | some i => .ok (fs.getD i default)

/-- The fields of extractor.Data assembled by getVideo. -/
structure VideoData where
  sourceUrl : String
  streamUrl : String
  title : String
  description : String
  uploader : String
  duration : Int
deriving Repr, DecidableEq, Inhabited

/-- Lines 458-461: strconv.Atoi on videoDetails.lengthSeconds, with parse
failures degraded to the sentinel -1. -/
def durationOf (lengthSeconds : String) : Int :=
  match goAtoi lengthSeconds with
  | some n => n
  | none => -1

/-- The retry loop of getVideo (lines 510-520). One full call of the local
closure `try` at iteration t is modelled by `attempt t`; the reachability
probe isOk (an HTTP GET, lines 498-505) at iteration t on a stream URL by
`isOk t`. Structural recursion on the remaining iteration count. -/
def getVideoRetryAux (attempt : Nat → Except Err VideoData)
    (isOk : Nat → String → Bool) : Nat → Nat → Except Err VideoData
  | 0, _ => .error .decryptFunctionBroken
  | n + 1, tries =>
    match attempt tries with
    | .error e => .error e
    | .ok data =>
      if isOk tries data.streamUrl then .ok data
      else getVideoRetryAux attempt isOk n (tries + 1)

/-- for tries := 0; tries < 10; tries++ over the resolve-then-validate
pipeline, ending in ErrDecryptFunctionBroken. -/
def getVideoRetry (attempt : Nat → Except Err VideoData)
    (isOk : Nat → String → Bool) : Except Err VideoData :=
  getVideoRetryAux attempt isOk 10 0

/-! ## GetPlaylist

The sidebar pages the loop consumes are modelled as a trace: one
`Except Err Page` per loop iteration, covering the getJSVar fetch and the
json.Unmarshal of that iteration (either can fail, aborting the walk).
util.ParseDurationSeconds lives in an external package; it is passed in as
an uninterpreted function (`none` = parse failure, degraded to -1). -/

structure PanelVideo where
  videoId : String
  index : Int
  title : String
  /-- shortBylineText.runs texts -/
  uploaderRuns : List String
  /-- lengthText.simpleText -/
  lengthText : String
deriving Repr, DecidableEq, Inhabited

structure Page where
  playlistTitle : String
  contents : List PanelVideo
deriving Repr, DecidableEq, Inhabited

/-- extractor.Data fields filled by GetPlaylist. -/
structure PData where
  sourceUrl : String
  title : String
  playlistUrl : String
  playlistTitle : String
  uploader : String
  duration : Int
deriving Repr, DecidableEq, Inhabited

structure YoutubePlaylist where
  videoURL : String
  videoTitle : String
  videoUploader : String
deriving Repr, DecidableEq, Inhabited

/-- A Go slice: `isNil` distinguishes a nil slice from an empty one. -/
structure GoSlice (α : Type) where
  isNil : Bool
  elems : List α
deriving Repr, DecidableEq, Inhabited

/-- The entry built at lines 351-358 for an in-order panel video. -/
def mkPData (parseDur : String → Option Int) (listId ptitle : String)
    (v : PanelVideo) : PData :=
  { sourceUrl := "https://www.youtube.com/watch?v=" ++ v.videoId
  , title := v.title
  , playlistUrl := "https://www.youtube.com/playlist?list=" ++ listId
  , playlistTitle := ptitle
  , uploader := v.uploaderRuns.headD ""
  , duration := match parseDur v.lengthText with
                | some n => n
                | none => -1 }

/-- The inner loop of GetPlaylist (lines 332-362): walk the page's panel
videos, appending exactly those whose reported index equals the current
result length; an in-order entry with no byline runs is ErrMalformedJson. -/
def processEntries (parseDur : String → Option Int) (listId ptitle : String) :
    List PanelVideo → List PData → Bool → Except Err (List PData × Bool)
  | [], res, added => .ok (res, added)
  | v :: vs, res, added =>
    if v.index = (res.length : Int) then
      if v.uploaderRuns.isEmpty then .error .malformedJson
      else
        processEntries parseDur listId ptitle vs
          (res ++ [mkPData parseDur listId ptitle v]) true
    else
      processEntries parseDur listId ptitle vs res added

/-- The outer page loop of GetPlaylist (lines 317-367): one trace element
per iteration; `none` when the loop would fetch beyond the supplied trace. -/
def playlistLoop (parseDur : String → Option Int) (listId : String) :
    List (Except Err Page) → List PData → Option (Except Err (List PData))
  | [], _ => none
  | pe :: rest, res =>
    match pe with
    | .error e => some (.error e)
    | .ok p =>
      match processEntries parseDur listId p.playlistTitle p.contents res false with
      | .error e => some (.error e)
      | .ok (res', added) =>
        if added then playlistLoop parseDur listId rest res'
        else some (.ok res')

/-- Lines 369-378: cleanRes := make([]YoutubePlaylist, 0) — a non-nil
slice — then one clean entry per collected entry, in order. -/
def cleanRes (res : List PData) : GoSlice YoutubePlaylist :=
  { isNil := false
  , elems := res.map fun v =>
      { videoURL := v.sourceUrl
      , videoTitle := v.title
      , videoUploader := v.uploader } }

/-- GetPlaylist (lines 298-379) over a page trace, starting from the nil
slice res (length 0). URL parsing of the playlist URL is abstracted to the
extracted listId. -/
def getPlaylistFromPages (parseDur : String → Option Int) (listId : String)
    (pages : List (Except Err Page)) :
    Option (Except Err (GoSlice YoutubePlaylist)) :=
  (playlistLoop parseDur listId pages []).map fun r => r.map cleanRes

/-! ## getSearchSuggestions -/

/-- The JSON values json.Unmarshal can store in an interface value. -/
inductive Json where
  | null
  | bool (b : Bool)
  | num (n : Int)
  | str (s : String)
  | arr (elems : List Json)
  | obj (fields : List (String × Json))

/-- json.Unmarshal(raw, &data) with data : []any (line 639): succeeds
exactly when the top-level value is an array (or null, which leaves data
nil = the empty list); anything else is a json.UnmarshalTypeError. -/
def unmarshalTopArray : Json → Except Err (List Json)
  | .arr xs => .ok xs
  | .null => .ok []
  | _ => .error .unmarshalTypeError

/-- The loop of getSearchSuggestions lines 652-662: each element must be a
3-element array whose first element is a string. -/
def collectSuggestions : List Json → Except Err (List String)
  | [] => .ok []
  | v :: rest =>
    match v with
    | .arr inner =>
      if inner.length ≠ 3 then .error .malformedJson
      else
        match inner.headD .null with
        | .str s =>
          match collectSuggestions rest with
          | .error e => .error e
          | .ok res => .ok (s :: res)
        | _ => .error .malformedJson
    | _ => .error .malformedJson

/-- getSearchSuggestions (lines 625-664) after the JSONP wrapper has been
stripped and the remaining text parsed into a JSON value: unmarshal into
[]any, require exactly 3 top-level elements, require the second to be an
array, and collect the inner first elements. -/
def getSearchSuggestionsCore (payload : Json) : Except Err (List String) :=
  match unmarshalTopArray payload with
  | .error e => .error e
  | .ok data =>
    if data.length ≠ 3 then .error .malformedJson
    else
      match (data.drop 1).headD .null with
      | .arr rawSuggestions => collectSuggestions rawSuggestions
      | _ => .error .malformedJson

/-! ## Concrete player-bundle bodies used as counterexample inputs -/

/-- A bundle body whose helper object has three entries, one of which
(cc) matches none of the three known patterns and is referenced nowhere
in the decrypt function. -/
def cexBundle : String :=
  "q&&(w=DD(decodeURIComponent(e)),t.set(y,encodeURIComponent(u)));var XX=\x7baa:function(a)\x7ba.reverse()\x7d,\nbb:function(a,b)\x7ba.splice(0,b)\x7d,\ncc:function(a,b)\x7ba.foo(b)\x7d\x7d;DD=function(a)\x7ba=a.split(\"\");XX.aa(a,1);XX.bb(a,2);return a.join(\"\")\x7d;"

/-- The helper-object body that locateOpsBody extracts from cexBundle. -/
def cexOpsBody : String :=
  "aa:function(a)\x7ba.reverse()\x7d,\nbb:function(a,b)\x7ba.splice(0,b)\x7d,\ncc:function(a,b)\x7ba.foo(b)\x7d"

/-- A bundle whose helper-object body has one line instead of three (the
specification's UnexpectedOpTableShape cause). -/
def bundleShapeErr : String :=
  "q&&(w=DD(decodeURIComponent(e)),t.set(y,encodeURIComponent(u)));var XX=\x7baa:function(a)\x7ba.reverse()\x7d\x7d;DD=function(a)\x7ba=a.split(\"\");XX.aa(a,1);return a.join(\"\")\x7d;"

/-- A bundle whose decrypt function passes a non-integer argument (the
specification's ArgumentParseError cause). -/
def bundleArgErr : String :=
  "q&&(w=DD(decodeURIComponent(e)),t.set(y,encodeURIComponent(u)));var XX=\x7baa:function(a)\x7ba.reverse()\x7d,\nbb:function(a,b)\x7ba.splice(0,b)\x7d,\ncc:function(a,b)\x7bvar c=a[0];a[0]=a[b%a.length];a[b%a.length]=c\x7d\x7d;DD=function(a)\x7ba=a.split(\"\");XX.aa(a,x);return a.join(\"\")\x7d;"

/-! ## Helper predicates used by theorem statements -/

/-- Invariant of the selection loop of getVideo after scanning the first
`i` formats: `none` means no audio format was seen yet; `some m` means
format m is an audio format of strictly maximal bitrate among the first
`i` formats, and the first one attaining that bitrate. -/
def SelInv (all : List AdaptiveFormat) (i : Nat) : Option Nat → Prop
  | none => ∀ j, (hj : j < all.length) → j < i →
      goStartsWith all[j].mimeType "audio/" = false
  | some m => m < i ∧ ∃ hm : m < all.length,
      goStartsWith all[m].mimeType "audio/" = true ∧
      (∀ j, (hj : j < all.length) → j < i →
        goStartsWith all[j].mimeType "audio/" = true →
        all[j].bitrate ≤ all[m].bitrate) ∧
      (∀ j, (hj : j < all.length) → j < m →
        goStartsWith all[j].mimeType "audio/" = true →
        all[j].bitrate < all[m].bitrate)

/-- Every collected entry at position k comes from a panel video of one of
the trace's successfully parsed pages whose reported index was k. -/
def FromPages (parseDur : String → Option Int) (listId : String)
    (pages : List (Except Err Page)) (res : List PData) : Prop :=
  ∀ k, (hk : k < res.length) → ∃ p v, Except.ok p ∈ pages ∧ v ∈ p.contents ∧
    v.index = (k : Int) ∧ res[k] = mkPData parseDur listId p.playlistTitle v

/-! # Theorems

General-purpose lemmas first, then one theorem per claim (with its
witness or counterexample where required). -/

theorem strLen_mk (l : List Char) : strLen ⟨l⟩ = l.length := rfl

theorem length_listSwap (l : List Char) (i j : Nat) :
    (listSwap l i j).length = l.length := by
  simp [listSwap]

theorem listSwap_listSwap (l : List Char) (j : Nat) (hj : j < l.length) :
    listSwap (listSwap l 0 j) 0 j = l := by
  have h0 : 0 < l.length := Nat.lt_of_le_of_lt (Nat.zero_le j) hj
  have e1 : (listSwap l 0 j).getD j ' ' = l[0] := by
    rw [List.getD_eq_getElem _ _ (by simp [listSwap, hj])]
    simp [listSwap, List.getElem_set, List.getElem?_eq_getElem, h0, hj]
  have e2 : (listSwap l 0 j).getD 0 ' ' = l[j] := by
    rw [List.getD_eq_getElem _ _ (by simp [listSwap, h0])]
    simp only [listSwap, List.getElem_set]
    by_cases hj0 : j = 0
    · subst hj0
      simp [List.getElem?_eq_getElem, hj]
    · simp [hj0, List.getElem?_eq_getElem, hj]
  rw [show listSwap (listSwap l 0 j) 0 j
      = ((listSwap l 0 j).set 0 ((listSwap l 0 j).getD j ' ')).set j
          ((listSwap l 0 j).getD 0 ' ') from rfl]
  rw [e1, e2]
  apply List.ext_getElem (by simp [listSwap])
  intro k h1 h2
  simp only [listSwap, List.getElem_set]
  by_cases hjk : j = k
  · subst hjk; simp [List.getElem?_eq_getElem, hj]
  · by_cases h0k : 0 = k <;>
      simp [hjk, h0k, List.getElem?_eq_getElem, hj, h0]

/-! ## Claim C4 -/

/-- Claim C4: the sliceFrom closure *a = (*a)[b:] applied to a string
shorter than the argument is an out-of-bounds slice expression, which
panics in Go (modelled as `none`): the code does not deliver the error or
empty result the specification requires at this boundary. Concretely, the
two-character string "ab" with argument 3 faults. -/
theorem sliceFrom_shorter_input_faults : sliceFromGo "ab" 3 = none := by
  decide

/-! ## Claim C6 -/

/-- Claim C6, counterexample to the unrestricted statement: on the empty
string, the swap closure evaluates b % len(*a) with len zero and panics
(division by zero), so applying swapFirst(0) twice to "" does not return
"". -/
theorem swapFirst_double_empty_counterexample :
    (swapFirstGo "" 0).bind (fun t => swapFirstGo t 0) ≠ some "" := by
  decide

/-- Claim C6 (amended): for every nonempty string s and every integer n
whose Go remainder n % len(s) is nonnegative (in particular every n ≥ 0),
applying the swapFirst(n) closure twice returns the original string. -/
theorem swapFirst_double_restores (s : String) (n : Int) (h0 : 0 < strLen s)
    (h1 : 0 ≤ Int.tmod n (strLen s : Int)) :
    (swapFirstGo s n).bind (fun t => swapFirstGo t n) = some s := by
  have hne : ¬ (strLen s = 0) := by omega
  have hlt : Int.tmod n (strLen s : Int) < (strLen s : Int) :=
    Int.tmod_lt_of_pos n (by exact_mod_cast h0)
  have hnlt : ¬ (Int.tmod n (strLen s : Int) < 0) := by omega
  have hjlt : (Int.tmod n (strLen s : Int)).toNat < s.toList.length := by
    have hls : strLen s = s.toList.length := rfl
    omega
  simp only [swapFirstGo]
  have hlen : strLen (⟨listSwap s.toList 0 (Int.tmod n (strLen s : Int)).toNat⟩ : String)
      = strLen s := by
    rw [strLen_mk, length_listSwap]; rfl
  simp only [hne, if_false, hnlt]
  rw [show ((some (⟨listSwap s.toList 0 (Int.tmod n (strLen s : Int)).toNat⟩ : String)).bind
      fun t => if strLen t = 0 then none
        else if Int.tmod n (strLen t : Int) < 0 then none
        else some (⟨listSwap t.toList 0 (Int.tmod n (strLen t : Int)).toNat⟩ : String))
      = (if strLen (⟨listSwap s.toList 0 (Int.tmod n (strLen s : Int)).toNat⟩ : String) = 0
          then none
        else if Int.tmod n (strLen (⟨listSwap s.toList 0 (Int.tmod n (strLen s : Int)).toNat⟩ : String) : Int) < 0 then none
        else some (⟨listSwap (listSwap s.toList 0 (Int.tmod n (strLen s : Int)).toNat) 0
          (Int.tmod n (strLen (⟨listSwap s.toList 0 (Int.tmod n (strLen s : Int)).toNat⟩ : String) : Int)).toNat⟩ : String)) from rfl]
  rw [hlen]
  simp only [hne, if_false, hnlt]
  rw [listSwap_listSwap _ _ hjlt]
  rfl

/-- Witness for the amended claim C6 at s = "abc", n = 4. -/
theorem swapFirst_double_restores_witness :
    0 < strLen "abc" ∧ 0 ≤ Int.tmod 4 (strLen "abc" : Int) ∧
    (swapFirstGo "abc" 4).bind (fun t => swapFirstGo t 4) = some "abc" :=
  ⟨by decide, by decide, swapFirst_double_restores "abc" 4 (by decide) (by decide)⟩

/-! ## Claim C2 -/

theorem getVideoRetryAux_allFail (attempt : Nat → Except Err VideoData)
    (isOk : Nat → String → Bool) :
    ∀ n t, (∀ i, t ≤ i → i < t + n → ∃ d, attempt i = .ok d ∧ isOk i d.streamUrl = false) →
    getVideoRetryAux attempt isOk n t = .error .decryptFunctionBroken := by
  intro n
  induction n with
  | zero => intro t _; rfl
  | succ m ih =>
    intro t h
    obtain ⟨d, hd, hok⟩ := h t (Nat.le_refl t) (by omega)
    rw [getVideoRetryAux, hd]
    simp only [hok, Bool.false_eq_true, if_false]
    exact ih (t + 1) (fun i h1 h2 => h i (by omega) (by omega))

theorem getVideoRetryAux_err (attempt : Nat → Except Err VideoData)
    (isOk : Nat → String → Bool) :
    ∀ n t k e, t ≤ k → k < t + n → attempt k = .error e →
    (∀ i, t ≤ i → i < k → ∃ d, attempt i = .ok d ∧ isOk i d.streamUrl = false) →
    getVideoRetryAux attempt isOk n t = .error e := by
  intro n
  induction n with
  | zero => intro t k e h1 h2; omega
  | succ m ih =>
    intro t k e h1 h2 hk hpre
    rcases Nat.eq_or_lt_of_le h1 with heq | hlt
    · subst heq
      rw [getVideoRetryAux, hk]
    · obtain ⟨d, hd, hok⟩ := hpre t (Nat.le_refl t) hlt
      rw [getVideoRetryAux, hd]
      simp only [hok, Bool.false_eq_true, if_false]
      exact ih (t + 1) k e hlt (by omega) hk (fun i hi1 hi2 => hpre i (by omega) hi2)

theorem getVideoRetryAux_ok (attempt : Nat → Except Err VideoData)
    (isOk : Nat → String → Bool) :
    ∀ n t k d, t ≤ k → k < t + n → attempt k = .ok d → isOk k d.streamUrl = true →
    (∀ i, t ≤ i → i < k → ∃ d2, attempt i = .ok d2 ∧ isOk i d2.streamUrl = false) →
    getVideoRetryAux attempt isOk n t = .ok d := by
  intro n
  induction n with
  | zero => intro t k d h1 h2; omega
  | succ m ih =>
    intro t k d h1 h2 hk hok hpre
    rcases Nat.eq_or_lt_of_le h1 with heq | hlt
    · subst heq
      rw [getVideoRetryAux, hk]
      simp only [hok, if_true]
    · obtain ⟨d2, hd2, hok2⟩ := hpre t (Nat.le_refl t) hlt
      rw [getVideoRetryAux, hd2]
      simp only [hok2, Bool.false_eq_true, if_false]
      exact ih (t + 1) k d hlt (by omega) hk hok (fun i hi1 hi2 => hpre i (by omega) hi2)

/-- Claim C2: the retry loop of getVideo runs the resolve-then-validate
pipeline at most 10 times (iterations 0..9): if every one of the 10
attempts resolves but fails the reachability check, the result is
ErrDecryptFunctionBroken; if some attempt's resolution fails after a run
of validation failures, that error is returned immediately; and if some
attempt resolves and validates after a run of validation failures, its
data is returned. -/
theorem getVideo_retry_behavior (attempt : Nat → Except Err VideoData)
    (isOk : Nat → String → Bool) :
    ((∀ i, i < 10 → ∃ d, attempt i = .ok d ∧ isOk i d.streamUrl = false) →
      getVideoRetry attempt isOk = .error .decryptFunctionBroken) ∧
    (∀ k e, k < 10 → attempt k = .error e →
      (∀ i, i < k → ∃ d, attempt i = .ok d ∧ isOk i d.streamUrl = false) →
      getVideoRetry attempt isOk = .error e) ∧
    (∀ k d, k < 10 → attempt k = .ok d → isOk k d.streamUrl = true →
      (∀ i, i < k → ∃ d2, attempt i = .ok d2 ∧ isOk i d2.streamUrl = false) →
      getVideoRetry attempt isOk = .ok d) := by
  refine ⟨?_, ?_, ?_⟩
  · intro h
    exact getVideoRetryAux_allFail attempt isOk 10 0 (fun i _ h2 => h i (by omega))
  · intro k e hk hke hpre
    exact getVideoRetryAux_err attempt isOk 10 0 k e (Nat.zero_le k) (by omega) hke
      (fun i _ hi => hpre i hi)
  · intro k d hk hka hok hpre
    exact getVideoRetryAux_ok attempt isOk 10 0 k d (Nat.zero_le k) (by omega) hka hok
      (fun i _ hi => hpre i hi)

/-- Witness for claim C2: an attempt function whose first resolution
fails makes getVideo return that error. -/
theorem getVideo_retry_behavior_witness :
    getVideoRetry (fun _ => .error .malformedJson) (fun _ _ => false)
      = .error .malformedJson :=
  (getVideo_retry_behavior (fun _ => .error .malformedJson) (fun _ _ => false)).2.1 0
    .malformedJson (by omega) rfl (fun i hi => absurd hi (Nat.not_lt_zero i))

/-! ## Claim C1 -/

theorem selectAudioAux_spec (all : List AdaptiveFormat) :
    ∀ (rest : List AdaptiveFormat) (i : Nat) (mb : Option Nat),
    all.drop i = rest → SelInv all i mb →
    SelInv all all.length (selectAudioAux all rest i mb) := by
  intro rest
  induction rest with
  | nil =>
    intro i mb hdrop hinv
    have hlen : all.length ≤ i := by
      by_contra hc
      push_neg at hc
      have := List.drop_eq_nil_iff.mp hdrop
      omega
    rw [selectAudioAux]
    match mb with
    | none =>
      intro j hj _
      exact hinv j hj (by omega)
    | some m =>
      obtain ⟨hmi, hm, ha, hle, hlt⟩ := hinv
      exact ⟨by omega, hm, ha,
        fun j hj _ haj => hle j hj (by omega) haj,
        fun j hj hjm haj => hlt j hj hjm haj⟩
  | cons f rest' ih =>
    intro i mb hdrop hinv
    have hi : i < all.length := by
      by_contra hc
      push_neg at hc
      rw [List.drop_eq_nil_iff.mpr hc] at hdrop
      exact List.noConfusion hdrop
    have hfi : all[i] = f := by
      have h2 : (all.drop i)[0]? = all[i + 0]? := List.getElem?_drop all i 0
      rw [hdrop, Nat.add_zero, List.getElem?_eq_getElem hi] at h2
      simpa using h2.symm
    have hdrop' : all.drop (i + 1) = rest' := by
      have h := congrArg (List.drop 1) hdrop
      rw [List.drop_drop] at h
      simpa using h
    simp only [selectAudioAux]
    apply ih (i + 1) _ hdrop'
    by_cases haud : goStartsWith f.mimeType "audio/" = true
    · simp only [haud, if_true]
      match mb with
      | none =>
        show SelInv all (i + 1) (some i)
        refine ⟨by omega, hi, by rw [hfi]; exact haud, ?_, ?_⟩
        · intro j hj hji haj
          rcases Nat.lt_or_ge j i with hlt | hge
          · exact absurd haj (by simp [hinv j hj hlt])
          · have : j = i := by omega
            subst this
            exact le_refl _
        · intro j hj hji haj
          exact absurd haj (by simp [hinv j hj hji])
      | some m =>
        obtain ⟨hmi, hm, ha, hle, hlt⟩ := hinv
        show SelInv all (i + 1)
          (if f.bitrate > (all.getD m default).bitrate then some i else some m)
        have hgd : all.getD m default = all[m] := List.getD_eq_getElem all default hm
        rw [hgd]
        by_cases hbr : f.bitrate > all[m].bitrate
        · simp only [hbr, if_true]
          refine ⟨by omega, hi, by rw [hfi]; exact haud, ?_, ?_⟩
          · intro j hj hji haj
            rcases Nat.lt_or_ge j i with hlt2 | hge
            · have := hle j hj hlt2 haj
              rw [hfi]
              omega
            · have : j = i := by omega
              subst this
              exact le_refl _
          · intro j hj hji haj
            have := hle j hj (by omega) haj
            rw [hfi]
            omega
        · simp only [hbr, if_false]
          refine ⟨by omega, hm, ha, ?_, hlt⟩
          intro j hj hji haj
          rcases Nat.lt_or_ge j i with hlt2 | hge
          · exact hle j hj hlt2 haj
          · have : j = i := by omega
            subst this
            rw [hfi]
            omega
    · simp only [haud, if_false]
      match mb with
      | none =>
        intro j hj hji
        rcases Nat.lt_or_ge j i with hlt | hge
        · exact hinv j hj hlt
        · have : j = i := by omega
          subst this
          rw [hfi]
          simpa using haud
      | some m =>
        obtain ⟨hmi, hm, ha, hle, hlt⟩ := hinv
        refine ⟨by omega, hm, ha, ?_, hlt⟩
        intro j hj hji haj
        rcases Nat.lt_or_ge j i with hlt2 | hge
        · exact hle j hj hlt2 haj
        · have : j = i := by omega
          subst this
          rw [hfi] at haj
          exact absurd haj (by simpa using haud)
/-- Claim C1: the selection loop of getVideo yields ErrNoSuitableFormat
exactly when no adaptive format's MIME type starts with "audio/";
otherwise the selected index is an audio format whose bitrate is maximal
among audio formats, and the first one attaining that maximum (ties keep
the first-encountered entry). -/
theorem getVideo_audio_selection (fs : List AdaptiveFormat) :
    (pickAudioFormat fs = .error .noSuitableFormat ↔
      ∀ f ∈ fs, goStartsWith f.mimeType "audio/" = false) ∧
    (∀ i, selectAudio fs = some i → ∃ hi : i < fs.length,
      pickAudioFormat fs = .ok fs[i] ∧
      goStartsWith fs[i].mimeType "audio/" = true ∧
      (∀ j, (hj : j < fs.length) → goStartsWith fs[j].mimeType "audio/" = true →
        fs[j].bitrate ≤ fs[i].bitrate) ∧
      (∀ j, (hj : j < fs.length) → j < i →
        goStartsWith fs[j].mimeType "audio/" = true →
        fs[j].bitrate < fs[i].bitrate)) := by
  have hspec : SelInv fs fs.length (selectAudio fs) :=
    selectAudioAux_spec fs fs 0 none rfl
      (fun j hj hj0 => absurd hj0 (Nat.not_lt_zero j))
  constructor
  · constructor
    · intro herr f hf
      cases hsel : selectAudio fs with
      | none =>
        rw [hsel] at hspec
        obtain ⟨j, hj, rfl⟩ := List.mem_iff_getElem.mp hf
        exact hspec j hj hj
      | some i =>
        rw [pickAudioFormat, hsel] at herr
        exact Except.noConfusion herr
    · intro hall
      rw [pickAudioFormat]
      cases hsel : selectAudio fs with
      | none => rfl
      | some m =>
        rw [hsel] at hspec
        obtain ⟨_, hm, ha, _, _⟩ := hspec
        have hfalse := hall fs[m] (fs.getElem_mem hm)
        rw [hfalse] at ha
        exact Bool.noConfusion ha
  · intro i hsel
    rw [hsel] at hspec
    obtain ⟨_, hi, ha, hle, hlt⟩ := hspec
    refine ⟨hi, ?_, ha, fun j hj haj => hle j hj hj haj,
      fun j hj hji haj => hlt j hj hji haj⟩
    rw [pickAudioFormat, hsel]
    show Except.ok (fs.getD i default) = Except.ok fs[i]
    rw [List.getD_eq_getElem fs default hi]

/-- Witness for claim C1 on the empty format list. -/
theorem getVideo_audio_selection_witness :
    pickAudioFormat ([] : List AdaptiveFormat) = .error .noSuitableFormat :=
  (getVideo_audio_selection []).1.mpr (by intro f hf; cases hf)

/-! ## Claim C3 -/

/-- Case analysis of updateDecryptor: it either fails leaving the state
untouched, succeeds leaving the state untouched, or succeeds rebuilding. -/
theorem updateDecryptor_cases (env : UpdateEnv) (d : Decryptor) :
    (∃ e, updateDecryptor env d = (d, some e)) ∨
    updateDecryptor env d = (d, none) ∨
    (∃ body ops, env.bundle = .ok body ∧ getDecryptOps body = .ok ops ∧
      updateDecryptor env d =
        ({ versionId := (goSplitN2 (goTrimPre env.url "/s/player/") "/").headD ""
         , ops := ops }, none)) := by
  unfold updateDecryptor
  split
  · exact Or.inl ⟨_, rfl⟩
  · split
    · exact Or.inr (Or.inl rfl)
    · split
      · exact Or.inl ⟨_, rfl⟩
      · split
        · exact Or.inr (Or.inl rfl)
        · split
          · exact Or.inl ⟨_, rfl⟩
          · split
            · exact Or.inl ⟨_, rfl⟩
            · rename_i x1 body heqb x2 ops heqo
              exact Or.inr (Or.inr ⟨body, ops, heqb, heqo, rfl⟩)

/-- Claim C3: whenever updateDecryptor returns an error, the cached
versionId and ops are exactly what they were before the call; whenever it
returns nil, the state is either completely untouched or both fields are
replaced together by the version id parsed from the bundle URL and the
operation list obtained from the fetched bundle body. -/
theorem updateDecryptor_atomic (env : UpdateEnv) (d : Decryptor) :
    (∀ e, (updateDecryptor env d).2 = some e → (updateDecryptor env d).1 = d) ∧
    ((updateDecryptor env d).2 = none →
      (updateDecryptor env d).1 = d ∨
      ∃ body ops, env.bundle = .ok body ∧ getDecryptOps body = .ok ops ∧
        (updateDecryptor env d).1 =
          { versionId := (goSplitN2 (goTrimPre env.url "/s/player/") "/").headD ""
          , ops := ops }) := by
  rcases updateDecryptor_cases env d with ⟨e, he⟩ | he | ⟨body, ops, hb, hops, he⟩
  · rw [he]
    exact ⟨fun _ _ => rfl, fun h => Option.noConfusion h⟩
  · rw [he]
    exact ⟨fun e' h => rfl, fun _ => Or.inl rfl⟩
  · rw [he]
    exact ⟨fun e' h => Option.noConfusion h,
      fun _ => Or.inr ⟨body, ops, hb, hops, rfl⟩⟩

/-- Witness for claim C3: a failing script fetch leaves the state intact. -/
theorem updateDecryptor_atomic_witness :
    (updateDecryptor ⟨some .fetchError, none, "", .error .fetchError⟩
      ⟨"v", []⟩).1 = ⟨"v", []⟩ :=
  (updateDecryptor_atomic ⟨some .fetchError, none, "", .error .fetchError⟩
    ⟨"v", []⟩).1 .fetchError rfl

/-! ## Claim C8 -/

theorem collectSuggestions_ok (xs : List Json) (ss : List String)
    (h : List.Forall₂ (fun x s => ∃ j1 j2, x = .arr [.str s, j1, j2]) xs ss) :
    collectSuggestions xs = .ok ss := by
  induction h with
  | nil => rfl
  | cons hx hrest ih =>
    rename_i x s xs' ss'
    obtain ⟨j1, j2, rfl⟩ := hx
    show (match collectSuggestions xs' with
      | Except.error e => Except.error e
      | Except.ok res => Except.ok (s :: res)) = Except.ok (s :: ss')
    rw [ih]

theorem collectSuggestions_cons_bad (v : Json) (rest : List Json)
    (hv : ∀ s j1 j2, v ≠ Json.arr [.str s, j1, j2]) :
    collectSuggestions (v :: rest) = .error .malformedJson :=
  match v, hv with
  | .null, _ => rfl
  | .bool _, _ => rfl
  | .num _, _ => rfl
  | .str _, _ => rfl
  | .obj _, _ => rfl
  | .arr [], _ => rfl
  | .arr [_], _ => rfl
  | .arr [_, _], _ => rfl
  | .arr (_ :: _ :: _ :: _ :: _), _ => rfl
  | .arr [.null, _, _], _ => rfl
  | .arr [.bool _, _, _], _ => rfl
  | .arr [.num _, _, _], _ => rfl
  | .arr [.arr _, _, _], _ => rfl
  | .arr [.obj _, _, _], _ => rfl
  | .arr [.str s, j1, j2], hv => absurd rfl (hv s j1 j2)

theorem collectSuggestions_bad (xs : List Json)
    (h : ¬ ∀ x ∈ xs, ∃ s j1 j2, x = Json.arr [.str s, j1, j2]) :
    collectSuggestions xs = .error .malformedJson := by
  induction xs with
  | nil => exact absurd (fun x hx => absurd hx (List.not_mem_nil x)) h
  | cons v rest ih =>
    by_cases hv : ∃ s j1 j2, v = Json.arr [Json.str s, j1, j2]
    · obtain ⟨s, j1, j2, rfl⟩ := hv
      have hrest : ¬ ∀ x ∈ rest, ∃ s j1 j2, x = Json.arr [Json.str s, j1, j2] := by
        intro hall
        apply h
        intro x hx
        rcases List.mem_cons.mp hx with rfl | hmem
        · exact ⟨s, j1, j2, rfl⟩
        · exact hall x hmem
      show (match collectSuggestions rest with
        | Except.error e => Except.error e
        | Except.ok res => Except.ok (s :: res)) = Except.error Err.malformedJson
      rw [ih hrest]
    · exact collectSuggestions_cons_bad v rest
        (fun s j1 j2 heq => hv ⟨s, j1, j2, heq⟩)

theorem coreArrBad (data : List Json)
    (hbad : ¬ ∃ a xs c, data = [a, .arr xs, c] ∧
      ∀ x ∈ xs, ∃ s j1 j2, x = Json.arr [.str s, j1, j2]) :
    getSearchSuggestionsCore (.arr data) = .error .malformedJson :=
  match data, hbad with
  | [], _ => rfl
  | [_], _ => rfl
  | [_, _], _ => rfl
  | _ :: _ :: _ :: _ :: _, _ => rfl
  | [_, .null, _], _ => rfl
  | [_, .bool _, _], _ => rfl
  | [_, .num _, _], _ => rfl
  | [_, .str _, _], _ => rfl
  | [_, .obj _, _], _ => rfl
  | [a, .arr xs, c], hbad => by
      show collectSuggestions xs = .error .malformedJson
      apply collectSuggestions_bad
      intro hall
      exact hbad ⟨a, xs, c, rfl, hall⟩

/-- Claim C8 (amended): after stripping the JSONP wrapper, a payload that
unmarshals into a top-level array (or null, which unmarshals to the empty
array) but deviates from the expected 3-element / inner 3-element-with-
string-first shape yields ErrMalformedJson; a payload of any other JSON
kind yields the json package's unmarshal type error instead; and a payload
of the expected shape yields exactly the inner arrays' first elements, in
order. No input panics: every input returns a value or an error. -/
theorem getSearchSuggestions_shape (payload : Json) :
    (∀ a xs c ss, payload = .arr [a, .arr xs, c] →
      List.Forall₂ (fun x s => ∃ j1 j2, x = .arr [.str s, j1, j2]) xs ss →
      getSearchSuggestionsCore payload = .ok ss) ∧
    (∀ data, payload = .arr data →
      (¬ ∃ a xs c, data = [a, .arr xs, c] ∧
        ∀ x ∈ xs, ∃ s j1 j2, x = .arr [.str s, j1, j2]) →
      getSearchSuggestionsCore payload = .error .malformedJson) ∧
    (payload = .null → getSearchSuggestionsCore payload = .error .malformedJson) ∧
    ((∀ data, payload ≠ .arr data) → payload ≠ .null →
      getSearchSuggestionsCore payload = .error .unmarshalTypeError) := by
  refine ⟨?_, ?_, ?_, ?_⟩
  · rintro a xs c ss rfl hf
    show collectSuggestions xs = .ok ss
    exact collectSuggestions_ok xs ss hf
  · rintro data rfl hbad
    exact coreArrBad data hbad
  · rintro rfl
    rfl
  · intro harr hnull
    match payload, harr, hnull with
    | .null, _, hnull => exact absurd rfl hnull
    | .arr xs, harr, _ => exact absurd rfl (harr xs)
    | .bool b, _, _ => rfl
    | .num n, _, _ => rfl
    | .str s, _, _ => rfl
    | .obj f, _, _ => rfl

/-- Witness for claim C8: the null payload yields ErrMalformedJson. -/
theorem getSearchSuggestions_shape_witness :
    getSearchSuggestionsCore .null = .error .malformedJson :=
  (getSearchSuggestions_shape .null).2.2.1 rfl

/-- Claim C8, counterexample to the original wording: a payload that is a
JSON string is not a 3-element top-level array, yet the returned error is
the json package's unmarshal type error, not ErrMalformedJson. -/
theorem getSearchSuggestions_counterexample :
    getSearchSuggestionsCore (.str "x") = .error .unmarshalTypeError ∧
    Err.unmarshalTypeError ≠ Err.malformedJson :=
  ⟨rfl, by decide⟩

/-! ## Claim C5 -/

theorem list_len2_eta (sp : List String) (h : sp.length = 2) :
    sp = [sp.headD "", (sp.drop 1).headD ""] :=
  match sp, h with
  | [_, _], _ => rfl
  | [], h => by simp at h
  | [_], h => by simp at h
  | _ :: _ :: _ :: _, h => by simp only [List.length_cons] at h; omega

theorem lookup_mem (l : List (String × OpKind)) (a : String) (b : OpKind)
    (h : l.lookup a = some b) : (a, b) ∈ l := by
  induction l with
  | nil => exact Option.noConfusion h
  | cons p rest ih =>
    obtain ⟨k, v⟩ := p
    rw [List.lookup] at h
    split at h
    · rename_i heq
      cases h
      have hak : a = k := eq_of_beq heq
      subst hak
      exact List.mem_cons_self _ _
    · exact List.mem_cons_of_mem _ (ih h)

theorem parseOps_ops_from_table (table : List (String × OpKind)) :
    ∀ (fns : List String) (ops : List DecryptorOp),
    parseOps table fns = .ok ops →
    ∀ op ∈ ops, ∃ name, table.lookup name = some op.kind := by
  intro fns
  induction fns with
  | nil =>
    intro ops h op hop
    rw [parseOps] at h
    cases h
    cases hop
  | cons fn rest ih =>
    intro ops h op hop
    simp only [parseOps] at h
    split at h
    · exact Except.noConfusion h
    · split at h
      · exact Except.noConfusion h
      · split at h
        · exact Except.noConfusion h
        · split at h
          · exact Except.noConfusion h
          · rename_i k hlook
            split at h
            · exact Except.noConfusion h
            · rename_i res hres
              cases h
              rcases List.mem_cons.mp hop with rfl | hmem
              · exact ⟨_, hlook⟩
              · exact ih res hres op hmem

theorem buildOpTableAux_mem :
    ∀ (lns : List String) (acc table : List (String × OpKind)),
    buildOpTableAux acc lns = .ok table →
    ∀ p ∈ table, p ∈ acc ∨ ∃ ln fnText, ln ∈ lns ∧
      goSplit ln ":" = [p.1, fnText] ∧ classifyOpFn fnText = some p.2 := by
  intro lns
  induction lns with
  | nil =>
    intro acc table h p hp
    rw [buildOpTableAux] at h
    cases h
    exact Or.inl hp
  | cons ln rest ih =>
    intro acc table h p hp
    simp only [buildOpTableAux] at h
    split at h
    · rename_i hlen2
      split at h
      · rename_i k hk
        rcases ih _ _ h p hp with hacc | ⟨ln2, ft, hln2, hsp, hcl⟩
        · rcases List.mem_cons.mp hacc with rfl | hacc2
          · refine Or.inr ⟨ln, ((goSplit ln ":").drop 1).headD "",
              List.mem_cons_self _ _, list_len2_eta _ hlen2, hk⟩
          · exact Or.inl hacc2
        · exact Or.inr ⟨ln2, ft, List.mem_cons_of_mem _ hln2, hsp, hcl⟩
      · rcases ih _ _ h p hp with hacc | ⟨ln2, ft, hln2, hsp, hcl⟩
        · exact Or.inl hacc
        · exact Or.inr ⟨ln2, ft, List.mem_cons_of_mem _ hln2, hsp, hcl⟩
    · exact Except.noConfusion h

/-- Claim C5 (amended): every operation in a successfully built operation
list arises from a helper-object entry whose function text matched one of
the three known structural patterns, so an unrecognized entry never
produces an operation (none is treated as a no-op); but an unrecognized
entry that the decrypt function never references does not by itself fail
the build. -/
theorem getDecryptOps_recognized (baseJs : String) (ops : List DecryptorOp)
    (h : getDecryptOps baseJs = .ok ops) :
    ∀ op ∈ ops, ∃ decrFn opsBody ln fnText name,
      getDecryptFunction baseJs = .ok decrFn ∧
      locateOpsBody baseJs decrFn = .ok opsBody ∧
      ln ∈ goSplit opsBody "\n" ∧
      goSplit ln ":" = [name, fnText] ∧
      classifyOpFn fnText = some op.kind := by
  intro op hop
  rw [getDecryptOps] at h
  split at h
  · exact Except.noConfusion h
  · rename_i decrFn hdf
    split at h
    · exact Except.noConfusion h
    · rename_i opsBody hlb
      split at h
      · exact Except.noConfusion h
      · rename_i table htb
        obtain ⟨name, hlook⟩ := parseOps_ops_from_table table _ ops h op hop
        have hmem := lookup_mem _ _ _ hlook
        rw [buildOpTable] at htb
        split at htb
        · exact Except.noConfusion htb
        · rcases buildOpTableAux_mem _ _ _ htb (name, op.kind) hmem with
            hacc | ⟨ln, ft, hln, hsp, hcl⟩
          · cases hacc
          · exact ⟨decrFn, opsBody, ln, ft, name, hdf, hlb, hln, hsp, hcl⟩

set_option maxRecDepth 40000 in
/-- Claim C5, counterexample to the original wording: a bundle whose
helper object contains the unrecognized entry cc (classified by no known
pattern) on which getDecryptOps nevertheless succeeds, because the
decrypt function references only aa and bb. -/
theorem unrecognized_entry_counterexample :
    getDecryptFunction cexBundle = .ok "XX.aa(a,1);XX.bb(a,2)" ∧
    locateOpsBody cexBundle "XX.aa(a,1);XX.bb(a,2)" = .ok cexOpsBody ∧
    "cc:function(a,b)\x7ba.foo(b)\x7d" ∈ goSplit cexOpsBody "\n" ∧
    goSplit "cc:function(a,b)\x7ba.foo(b)\x7d" ":" =
      ["cc", "function(a,b)\x7ba.foo(b)\x7d"] ∧
    classifyOpFn "function(a,b)\x7ba.foo(b)\x7d" = none ∧
    getDecryptOps cexBundle = .ok [⟨.reverse, 1⟩, ⟨.sliceFrom, 2⟩] := by
  refine ⟨by rfl, by rfl, ?_, by rfl, by rfl, by rfl⟩
  rw [show goSplit cexOpsBody "\n" =
    ["aa:function(a)\x7ba.reverse()\x7d,", "bb:function(a,b)\x7ba.splice(0,b)\x7d,",
     "cc:function(a,b)\x7ba.foo(b)\x7d"] from by rfl]
  exact List.mem_cons_of_mem _ (List.mem_cons_of_mem _ (List.mem_cons_self _ _))

set_option maxRecDepth 40000 in
/-- Claim C9, counterexample to the original wording: an op-table shape
failure and an argument-parse failure - two distinct causes of the §7
taxonomy - produce the very same error value ErrDecryptGettingOpTable,
so distinct causes do not yield distinguishable errors; and a
malformed-bootstrap failure (the funcErr path of updateDecryptor, whose
line 94 returns the nil err instead of funcErr) is silently swallowed:
the call returns no error at all while leaving the state unrebuilt. -/
theorem error_collision_counterexample :
    getDecryptOps bundleShapeErr = .error .decryptGettingOpTable ∧
    getDecryptOps bundleArgErr = .error .decryptGettingOpTable ∧
    updateDecryptor ⟨none, some Err.gettingBaseJs, "", .error .fetchError⟩
      ⟨"", []⟩ = (⟨"", []⟩, none) :=
  ⟨by rfl, by rfl, by rfl⟩

/-! ## Claim C9 -/

theorem getDecryptFunction_error (baseJs : String) (e : Err)
    (h : getDecryptFunction baseJs = .error e) :
    e = .decryptGettingFunctionName ∨ e = .decryptGettingFunction := by
  simp only [getDecryptFunction] at h
  split at h
  · cases h; exact Or.inl rfl
  · split at h
    · cases h; exact Or.inr rfl
    · split at h
      · cases h; exact Or.inr rfl
      · exact Except.noConfusion h

theorem locateOpsBody_error (baseJs decrFn : String) (e : Err)
    (h : locateOpsBody baseJs decrFn = .error e) :
    e = .decryptGettingOpTable := by
  simp only [locateOpsBody] at h
  split at h
  · cases h; rfl
  · split at h
    · cases h; rfl
    · split at h
      · cases h; rfl
      · exact Except.noConfusion h

theorem buildOpTableAux_error :
    ∀ (lns : List String) (acc : List (String × OpKind)) (e : Err),
    buildOpTableAux acc lns = .error e → e = .decryptGettingOpTable := by
  intro lns
  induction lns with
  | nil =>
    intro acc e h
    rw [buildOpTableAux] at h
    exact Except.noConfusion h
  | cons ln rest ih =>
    intro acc e h
    simp only [buildOpTableAux] at h
    split at h
    · split at h
      · exact ih _ _ h
      · exact ih _ _ h
    · cases h; rfl

theorem buildOpTable_error (ops : String) (e : Err)
    (h : buildOpTable ops = .error e) : e = .decryptGettingOpTable := by
  rw [buildOpTable] at h
  split at h
  · cases h; rfl
  · exact buildOpTableAux_error _ _ _ h

theorem parseOps_error (table : List (String × OpKind)) :
    ∀ (fns : List String) (e : Err),
    parseOps table fns = .error e → e = .decryptGettingOpTable := by
  intro fns
  induction fns with
  | nil =>
    intro e h
    rw [parseOps] at h
    exact Except.noConfusion h
  | cons fn rest ih =>
    intro e h
    simp only [parseOps] at h
    split at h
    · cases h; rfl
    · split at h
      · cases h; rfl
      · split at h
        · cases h; rfl
        · split at h
          · cases h; rfl
          · split at h
            · rename_i e2 hres
              cases h
              exact ih _ hres
            · exact Except.noConfusion h

/-- Claim C9 (amended): every failure of getDecryptOps surfaces to the
caller as one of the three inspectable error values
ErrDecryptGettingFunctionName, ErrDecryptGettingFunction or
ErrDecryptGettingOpTable, and duration-parse failures degrade to the
sentinel -1 instead of failing; but the finer §7 causes are not
pairwise distinguishable, and one failure cause is silently swallowed:
when the homepage scan sets funcErr (malformed bootstrap config),
updateDecryptor returns nil - line 94 returns err, which is nil there,
instead of funcErr - so the caller sees neither an error nor a rebuild. -/
theorem decrypt_failures_surface :
    (∀ baseJs e, getDecryptOps baseJs = .error e →
      e = .decryptGettingFunctionName ∨ e = .decryptGettingFunction ∨
      e = .decryptGettingOpTable) ∧
    (∀ s, goAtoi s = none → durationOf s = -1) ∧
    (∀ s n, goAtoi s = some n → durationOf s = n) ∧
    (∀ env d, env.fetchErr = none → env.funcErr.isSome = true →
      updateDecryptor env d = (d, none)) := by
  refine ⟨?_, ?_, ?_, ?_⟩
  · intro baseJs e h
    rw [getDecryptOps] at h
    split at h
    · rename_i e2 hdf
      cases h
      rcases getDecryptFunction_error _ _ hdf with h1 | h1
      · exact Or.inl h1
      · exact Or.inr (Or.inl h1)
    · rename_i decrFn hdf
      split at h
      · rename_i e2 hlb
        cases h
        exact Or.inr (Or.inr (locateOpsBody_error _ _ _ hlb))
      · rename_i opsBody hlb
        split at h
        · rename_i e2 htb
          cases h
          exact Or.inr (Or.inr (buildOpTable_error _ _ htb))
        · rename_i table htb
          exact Or.inr (Or.inr (parseOps_error _ _ _ h))
  · intro s h
    simp only [durationOf, h]
  · intro s n h
    simp only [durationOf, h]
  · intro env d hf hfe
    obtain ⟨fe, fu, url, bundle⟩ := env
    simp only at hf hfe
    subst hf
    simp only [updateDecryptor, hfe, if_true]

set_option maxRecDepth 40000 in
/-- Witness for the amended claim C5 on the concrete bundle. -/
theorem getDecryptOps_recognized_witness :
    ∃ decrFn opsBody ln fnText name,
      getDecryptFunction cexBundle = .ok decrFn ∧
      locateOpsBody cexBundle decrFn = .ok opsBody ∧
      ln ∈ goSplit opsBody "\n" ∧
      goSplit ln ":" = [name, fnText] ∧
      classifyOpFn fnText = some OpKind.reverse :=
  getDecryptOps_recognized cexBundle [⟨.reverse, 1⟩, ⟨.sliceFrom, 2⟩] (by rfl)
    ⟨.reverse, 1⟩ (List.mem_cons_self _ _)

/-- Witness for the amended claim C9: an unparseable lengthSeconds field
degrades to the sentinel duration -1. -/
theorem decrypt_failures_surface_witness : durationOf "x" = -1 :=
  decrypt_failures_surface.2.1 "x" rfl

/-! ## Claims C7 and C10 -/

theorem processEntries_skip (parseDur : String → Option Int) (listId ptitle : String) :
    ∀ (vids : List PanelVideo) (res : List PData) (added : Bool),
    (∀ v ∈ vids, v.index ≠ (res.length : Int)) →
    processEntries parseDur listId ptitle vids res added = .ok (res, added) := by
  intro vids
  induction vids with
  | nil => intro res added _; rfl
  | cons v vs ih =>
    intro res added h
    rw [processEntries]
    rw [if_neg (h v (List.mem_cons_self _ _))]
    exact ih res added (fun w hw => h w (List.mem_cons_of_mem _ hw))

theorem processEntries_from (parseDur : String → Option Int) (listId : String)
    (pages : List (Except Err Page)) (p : Page)
    (hp : Except.ok p ∈ pages) :
    ∀ (vids : List PanelVideo) (res : List PData) (added : Bool)
      (res' : List PData) (added' : Bool),
    (∀ v ∈ vids, v ∈ p.contents) →
    processEntries parseDur listId p.playlistTitle vids res added = .ok (res', added') →
    FromPages parseDur listId pages res →
    FromPages parseDur listId pages res' := by
  intro vids
  induction vids with
  | nil =>
    intro res added res' added' _ h hres
    rw [processEntries] at h
    cases h
    exact hres
  | cons v vs ih =>
    intro res added res' added' hsub h hres
    rw [processEntries] at h
    split at h
    · rename_i hidx
      split at h
      · exact Except.noConfusion h
      · apply ih (res ++ [mkPData parseDur listId p.playlistTitle v]) true res' added'
          (fun w hw => hsub w (List.mem_cons_of_mem _ hw)) h
        intro k hk
        rw [List.length_append, List.length_cons, List.length_nil] at hk
        rcases Nat.lt_or_ge k res.length with hlt | hge
        · obtain ⟨q, w, hq, hw, hwi, hwe⟩ := hres k hlt
          refine ⟨q, w, hq, hw, hwi, ?_⟩
          rw [List.getElem_append_left hlt]
          exact hwe
        · have hk2 : k = res.length := by omega
          subst hk2
          refine ⟨p, v, hp, hsub v (List.mem_cons_self _ _), by rw [← hidx], ?_⟩
          rw [List.getElem_append_right (Nat.le_refl _)]
          simp
    · exact ih res added res' added'
        (fun w hw => hsub w (List.mem_cons_of_mem _ hw)) h hres

theorem playlistLoop_from (parseDur : String → Option Int) (listId : String)
    (allPages : List (Except Err Page)) :
    ∀ (pages : List (Except Err Page)) (res r : List PData),
    (∀ pe ∈ pages, pe ∈ allPages) →
    FromPages parseDur listId allPages res →
    playlistLoop parseDur listId pages res = some (.ok r) →
    FromPages parseDur listId allPages r := by
  intro pages
  induction pages with
  | nil =>
    intro res r _ _ h
    exact Option.noConfusion h
  | cons pe rest ih =>
    intro res r hsub hres h
    simp only [playlistLoop] at h
    split at h
    · rename_i e
      injection h with h2
      exact Except.noConfusion h2
    · rename_i p
      split at h
      · rename_i e heq
        injection h with h2
        exact Except.noConfusion h2
      · rename_i res' added heq
        have hres' : FromPages parseDur listId allPages res' :=
          processEntries_from parseDur listId allPages p
            (hsub _ (List.mem_cons_self _ _)) p.contents res false res' added
            (fun w hw => hw) heq hres
        split at h
        · exact ih res' r (fun pe2 h2 => hsub pe2 (List.mem_cons_of_mem _ h2)) hres' h
        · injection h with h2
          injection h2 with h3
          exact h3 ▸ hres'

theorem playlistLoop_stop (parseDur : String → Option Int) (listId : String)
    (p : Page) (rest : List (Except Err Page)) (res : List PData)
    (h : ∀ v ∈ p.contents, v.index ≠ (res.length : Int)) :
    playlistLoop parseDur listId (Except.ok p :: rest) res = some (.ok res) := by
  simp only [playlistLoop]
  rw [processEntries_skip parseDur listId p.playlistTitle p.contents res false h]
  rfl

/-- Claim C7: in every successful GetPlaylist walk, the k-th returned
entry (0-based) comes from a panel video of one of the consumed pages
whose reported index was exactly k (so the list preserves playlist
order); an in-order panel video with byline data is appended exactly at
the position equal to the current count; and a page in which no entry's
reported index equals the current count ends the loop immediately,
returning the entries collected so far. -/
theorem getPlaylist_in_order (parseDur : String → Option Int) (listId : String) :
    (∀ pages r, getPlaylistFromPages parseDur listId pages = some (.ok r) →
      ∀ k, (hk : k < r.elems.length) → ∃ p v, Except.ok p ∈ pages ∧
        v ∈ p.contents ∧ v.index = (k : Int) ∧
        r.elems[k] = { videoURL := "https://www.youtube.com/watch?v=" ++ v.videoId
                     , videoTitle := v.title
                     , videoUploader := v.uploaderRuns.headD "" }) ∧
    (∀ ptitle v vs res added, v.index = (res.length : Int) → v.uploaderRuns ≠ [] →
      processEntries parseDur listId ptitle (v :: vs) res added =
        processEntries parseDur listId ptitle vs
          (res ++ [mkPData parseDur listId ptitle v]) true) ∧
    (∀ p rest res, (∀ v ∈ p.contents, v.index ≠ (res.length : Int)) →
      playlistLoop parseDur listId (Except.ok p :: rest) res = some (.ok res)) := by
  refine ⟨?_, ?_, ?_⟩
  · intro pages r h k hk
    rw [getPlaylistFromPages] at h
    cases hloop : playlistLoop parseDur listId pages [] with
    | none => rw [hloop] at h; exact Option.noConfusion h
    | some x =>
      rw [hloop] at h
      injection h with h2
      cases x with
      | error e => exact Except.noConfusion h2
      | ok res =>
        injection h2 with h3
        have hfrom : FromPages parseDur listId pages res :=
          playlistLoop_from parseDur listId pages pages [] res
            (fun pe hpe => hpe)
            (fun k hk => absurd hk (by simp)) hloop
        have hkr : k < res.length := by
          have : r.elems.length = res.length := by
            rw [← h3, cleanRes, List.length_map]
          omega
        obtain ⟨p, v, hp, hv, hvi, hve⟩ := hfrom k hkr
        refine ⟨p, v, hp, hv, hvi, ?_⟩
        have helems : r.elems = res.map fun v =>
            { videoURL := v.sourceUrl
            , videoTitle := v.title
            , videoUploader := v.uploader } := by
          rw [← h3, cleanRes]
        rw [List.getElem_of_eq helems hk, List.getElem_map, hve]
        rfl
  · intro ptitle v vs res added hidx hruns
    rw [processEntries, if_pos hidx]
    rw [if_neg (by simpa using hruns)]
  · exact fun p rest res h => playlistLoop_stop parseDur listId p rest res h

/-- Witness for claim C7: a single page with no contents stops the loop
at once. -/
theorem getPlaylist_in_order_witness :
    playlistLoop (fun _ => none) "L" [Except.ok ⟨"T", []⟩] [] = some (.ok []) :=
  (getPlaylist_in_order (fun _ => none) "L").2.2 ⟨"T", []⟩ [] []
    (fun v hv => absurd hv (List.not_mem_nil v))

/-- Claim C10: when the first successfully parsed page has no entry with
reported index 0, GetPlaylist succeeds with the empty, non-nil slice (no
error), and more generally every successful GetPlaylist returns a
non-nil slice. -/
theorem getPlaylist_empty_non_nil (parseDur : String → Option Int) (listId : String) :
    (∀ p rest, (∀ v ∈ p.contents, v.index ≠ (0 : Int)) →
      getPlaylistFromPages parseDur listId (Except.ok p :: rest) =
        some (.ok ⟨false, []⟩)) ∧
    (∀ pages r, getPlaylistFromPages parseDur listId pages = some (.ok r) →
      r.isNil = false) := by
  constructor
  · intro p rest h
    rw [getPlaylistFromPages]
    rw [playlistLoop_stop parseDur listId p rest []
      (fun v hv => by simpa using h v hv)]
    rfl
  · intro pages r h
    rw [getPlaylistFromPages] at h
    cases hloop : playlistLoop parseDur listId pages [] with
    | none => rw [hloop] at h; exact Option.noConfusion h
    | some x =>
      rw [hloop] at h
      injection h with h2
      cases x with
      | error e => exact Except.noConfusion h2
      | ok res =>
        injection h2 with h3
        rw [← h3]
        rfl

/-- Witness for claim C10 on a concrete one-page trace. -/
theorem getPlaylist_empty_non_nil_witness :
    getPlaylistFromPages (fun _ => none) "L" [Except.ok ⟨"T", []⟩] =
      some (.ok ⟨false, []⟩) :=
  (getPlaylist_empty_non_nil (fun _ => none) "L").1 ⟨"T", []⟩ []
    (fun v hv => absurd hv (List.not_mem_nil v))

end Gobalt
